import Mathlib

/-!
# Verification of the `page2tsv` toolkit (`tsvtools/cli.py`)

A shallow embedding of the record-extraction command `page2tsv`, the
structured-document patcher `tsv2page` and the entity-enrichment driver
`find_entities` of `tsvtools/cli.py`, together with theorems settling the
specification claims about them.

Modelling conventions:
* Python floats (rotation angles, confidences) are modelled as exact
  rationals; Python `x % 360` on a float becomes `pymod x 360` below.
* The external PAGE document model (ocrd_models) is embedded as read-only
  Lean structures.  An attribute getter that either raises or returns
  `None` for an absent value is modelled as an `Option` field; the code's
  `try: ... except:` fallbacks become `Option` matches.
* Exceptions escaping the command are modelled with `Except PyErr`;
  a bare `except: pass` that swallows everything becomes ordinary control
  flow on the model (nothing inside the guarded block can fail there).
* Polygons arrive already parsed as integer point lists; an empty list is
  the polygon from which `bbox_from_points` can produce no bounding box
  (it raises `ValueError` on the corresponding empty points string).
-/

namespace PageToTsv

instance {ε α : Type} [DecidableEq ε] [DecidableEq α] : DecidableEq (Except ε α) := fun a b =>
  match a, b with
  | .ok x, .ok y =>
      if h : x = y then .isTrue (by rw [h]) else .isFalse (by intro hc; cases hc; exact h rfl)
  | .error e, .error e' =>
      if h : e = e' then .isTrue (by rw [h]) else .isFalse (by intro hc; cases hc; exact h rfl)
  | .ok _, .error _ => .isFalse (by intro hc; cases hc)
  | .error _, .ok _ => .isFalse (by intro hc; cases hc)

/-! ## String helpers

Python's `in` and `re.sub` (with the literal patterns the code uses) are
embedded as structural functions on character lists. -/

/-- Whether `pat` occurs in `s` as a contiguous substring. -/
def hasSubAux : List Char → List Char → Bool
  | [], pat => pat.isEmpty
  | c :: rest, pat => pat.isPrefixOf (c :: rest) || hasSubAux rest pat

/-- Python `pat in s` for strings. -/
def strContains (s pat : String) : Bool := hasSubAux s.data pat.data

/-- Leftmost, non-overlapping replacement of every occurrence of `pat` by
`rep` (Python `re.sub` with a literal pattern); `fuel` bounds the scan. -/
def replaceAux (pat rep : List Char) : ℕ → List Char → List Char
  | 0, s => s
  | _ + 1, [] => []
  | fuel + 1, c :: rest =>
    if !pat.isEmpty && pat.isPrefixOf (c :: rest) then
      rep ++ replaceAux pat rep fuel ((c :: rest).drop pat.length)
    else
      c :: replaceAux pat rep fuel rest

/-- `re.sub(pat, rep, s)` for the literal patterns used by `cli.py`. -/
def strReplace (s pat rep : String) : String :=
  ⟨replaceAux pat.data rep.data s.data.length s.data⟩

/-- Tab-joining of fields (pandas `to_csv(sep="\t", quoting=3)` writes
every field literally). -/
def tabJoin : List String → String
  | [] => ""
  | [s] => s
  | s :: rest => s ++ "\t" ++ tabJoin rest

/-- Python exception classes relevant to the embedded commands. -/
inductive PyErr where
  | valueError
  | attributeError
  | typeError
  | keyError
  | runtimeError (msg : String)
  deriving DecidableEq, Repr

/-- Python `x % m` on exact values: the remainder with the sign of the
divisor, i.e. `x - m * floor (x / m)`. -/
def pymod (x m : ℚ) : ℚ := x - m * ⌊x / m⌋

/-- Rotation composition of `cli.py` (lines 163/172/177/188):
`parent + own` inside a `try`, falling back to `parent` when the own
orientation is absent (the getter yields nothing and the addition raises).
An absent level therefore contributes `0`. -/
def composeRotation (parent : ℚ) (own : Option ℚ) : ℚ := parent + own.getD 0

/-! ## The PAGE document model (external provider, embedded read-only) -/

/-- `TextStyle` block of a segment; every attribute is optional. -/
structure TextStyleE where
  fontFamily : Option String
  fontSize : Option ℚ
  bold : Option Bool
  italic : Option Bool
  letterSpaced : Option Bool
  deriving DecidableEq, Repr

/-- The attributes common to region / line / word segments.
`orientation`, `language`, `textStyle` are `none` when the attribute is
absent or its getter raises on this segment type. -/
structure SegAttrs where
  id : String
  points : List (Int × Int)
  orientation : Option ℚ
  textEquivs : List (String × ℚ)
  language : Option String
  textStyle : Option TextStyleE
  deriving DecidableEq, Repr

structure WordE where
  attrs : SegAttrs
  deriving DecidableEq, Repr

structure TextLineE where
  attrs : SegAttrs
  words : List WordE
  deriving DecidableEq, Repr

/-- A region; `cls` is its PAGE class ("Text", "Image", ...), `lines` its
text lines in reading order. -/
structure RegionE where
  attrs : SegAttrs
  cls : String
  lines : List TextLineE
  deriving DecidableEq, Repr

/-- A page: image file name, optional page orientation, regions in reading
order (the order `get_AllRegions(order='reading-order')` yields). -/
structure PageE where
  imageFilename : String
  orientation : Option ℚ
  regions : List RegionE
  deriving DecidableEq, Repr

/-- One entry of the METS file group: the page id from the page-to-file
mapping plus the parsed page. -/
structure PageFile where
  pageId : String
  page : PageE
  deriving DecidableEq, Repr

/-! ## Geometry (`ocrd_utils.bbox_from_points`) -/

structure Box where
  x0 : Int
  y0 : Int
  x1 : Int
  y1 : Int
  deriving DecidableEq, Repr

/-- Minimal axis-aligned bounding box of a point list; `none` models the
`ValueError` raised on an empty points string. -/
def bbox : List (Int × Int) → Option Box
  | [] => none
  | (x, y) :: ps =>
      some (ps.foldl (fun b q => ⟨min b.x0 q.1, min b.y0 q.2, max b.x1 q.1, max b.y1 q.2⟩)
        ⟨x, y, x, y⟩)

/-- `str(x0)+','+str(y0)+','+str(x1-x0)+','+str(y1-y0)` (lines 198/204). -/
def boxStr (b : Box) : String :=
  toString b.x0 ++ "," ++ toString b.y0 ++ "," ++ toString (b.x1 - b.x0) ++ ","
    ++ toString (b.y1 - b.y0)

/-! ## Image URLs (lines 117-126 and 141) -/

/-- Upper-case hexadecimal digit. -/
def hexDigit (n : ℕ) : Char := if n < 10 then Char.ofNat (48 + n) else Char.ofNat (55 + n)

/-- `%XX` percent-encoding of one byte. -/
def percentByte (b : ℕ) : String :=
  "%" ++ String.singleton (hexDigit (b / 16)) ++ String.singleton (hexDigit (b % 16))

/-- UTF-8 bytes of a code point (standard 1-4 byte encoding). -/
def utf8Bytes (c : Char) : List ℕ :=
  let n := c.toNat
  if n < 0x80 then [n]
  else if n < 0x800 then [0xC0 + n / 64, 0x80 + n % 64]
  else if n < 0x10000 then [0xE0 + n / 4096, 0x80 + n / 64 % 64, 0x80 + n % 64]
  else [0xF0 + n / 262144, 0x80 + n / 4096 % 64, 0x80 + n / 64 % 64, 0x80 + n % 64]

/-- `urllib.parse.quote(s, safe='')`: ASCII alphanumerics and `_.-~` kept,
everything else percent-encoded byte-wise. -/
def pyQuote (s : String) : String :=
  s.data.foldl
    (fun acc c =>
      if c.isAlphanum || c = '_' || c = '.' || c = '-' || c = '~' then
        acc ++ String.singleton c
      else
        acc ++ ((utf8Bytes c).map percentByte).foldl (· ++ ·) "")
    ""

/-- The `base_url` after the `re.sub` chain of lines 118-126. -/
def baseUrlOf (scheme server pfx : String) : String :=
  let u := "scheme://server/prefix/identifier"
  let u := strReplace u "scheme" scheme
  let u := strReplace u "server" server
  if pfx ≠ "" then strReplace u "prefix" pfx else strReplace u "/prefix" ""

/-- The URL appended for one page file (line 141). -/
def fileUrl (scheme server pfx : String) (f : PageFile) : String :=
  strReplace (baseUrlOf scheme server pfx) "identifier" (pyQuote f.page.imageFilename)

/-! ## Output rows -/

inductive Purpose where
  | fonts
  | skew
  deriving DecidableEq, Repr

/-- A data row of the `fonts` schema (the 10-tuple appended at lines
266-285).  The code stores `str(rotation % 360)`; the row keeps the exact
rational, rendered by `pyFloatStr` on serialization. -/
structure FontsRow where
  text_equiv : String
  language : String
  font_family : String
  segment_type : String
  segment_id : String
  url_id : ℕ
  region : String
  rotation : ℚ
  full_region : String
  full_rotation : ℚ
  deriving DecidableEq, Repr

/-- A data row of the `skew` schema (lines 156 and 289). -/
structure SkewRow where
  segment_type : String
  segment_id : String
  url_id : ℕ
  region : String
  rotation : ℚ
  deriving DecidableEq, Repr

inductive Row where
  | fonts (f : FontsRow)
  | skew (s : SkewRow)
  deriving DecidableEq, Repr

/-- The header line written at line 112 (`out_columns`, lines 100-105). -/
def headerLine : Purpose → String
  | .fonts => tabJoin
      ["text_equiv", "language", "font_family", "segment_type", "segment_id", "url_id",
       "region", "rotation", "full_region", "full_rotation"]
  | .skew => tabJoin
      ["segment_type", "segment_id", "url_id", "region", "rotation"]

/-- Python `str()` of a float, restricted to the values this development
evaluates: a float with integral value prints as `"<n>.0"`.  Non-integral
rationals fall back to the rational literal (the shortest-repr printing of
arbitrary Python floats is not modelled). -/
def pyFloatStr (q : ℚ) : String :=
  if q.den = 1 then toString q.num ++ ".0" else toString q

/-- One serialized data row (tab-separated, minimal quoting). -/
def serializeRow : Row → String
  | .fonts f => tabJoin
      [f.text_equiv, f.language, f.font_family, f.segment_type, f.segment_id,
       toString f.url_id, f.region, pyFloatStr f.rotation, f.full_region,
       pyFloatStr f.full_rotation]
  | .skew s => tabJoin
      [s.segment_type, s.segment_id, toString s.url_id, s.region, pyFloatStr s.rotation]

/-! ## The hierarchy walker (lines 143-192) -/

/-- A segment queued for emission: the 4-tuple
`(segment, rotation, full, full_rotation)` of lines 166/180/191.
`fullPts` is the polygon of the "full" ancestor; it is `none` when the
full ancestor is the page itself (line 166), whose element carries no
polygon, so reading its coordinates raises. -/
structure SegCtx where
  seg : SegAttrs
  rot : ℚ
  fullPts : Option (List (Int × Int))
  fullRot : ℚ
  deriving DecidableEq, Repr

/-- The page rotation of lines 143-147: the page orientation, read as `0`
when absent. -/
def pageRotationOf (p : PageE) : ℚ := p.orientation.getD 0

/-- `page.get_AllRegions(classes=[cls], order='reading-order')`. -/
def regionsOfClass (p : PageE) (cls : String) : List RegionE :=
  p.regions.filter (fun r => r.cls = cls)

/-- Lines 168-180: every line of every Text region with its composed
rotation, enclosing region and region rotation. -/
def walkLines (p : PageE) (pageRot : ℚ) : List (TextLineE × ℚ × SegAttrs × ℚ) :=
  (regionsOfClass p "Text").flatMap (fun reg =>
    let regionRotation := composeRotation pageRot reg.attrs.orientation
    reg.lines.map (fun line =>
      (line, composeRotation regionRotation line.attrs.orientation, reg.attrs, regionRotation)))

/-- The segment list of lines 157-192 for a non-`Page` granularity. -/
def segmentsFor (segment_type : String) (p : PageE) (pageRot : ℚ) : List SegCtx :=
  if strContains segment_type "Region" then
    (regionsOfClass p (strReplace segment_type "Region" "")).map (fun reg =>
      ⟨reg.attrs, composeRotation pageRot reg.attrs.orientation, none, pageRot⟩)
  else
    let lns := walkLines p pageRot
    if segment_type = "TextLine" then
      lns.map (fun t => ⟨t.1.attrs, t.2.1, some t.2.2.1.points, t.2.2.2⟩)
    else
      lns.flatMap (fun t =>
        t.1.words.map (fun w =>
          ⟨w.attrs, composeRotation t.2.1 w.attrs.orientation, some t.2.2.1.points, t.2.2.2⟩))

/-! ## The record extractor (lines 194-289) -/

/-- `if not v: v = '-'` after an optional read: absent, failing or empty
collapses to the sentinel `-`. -/
def sentinel : Option String → String
  | some s => if s = "" then "-" else s
  | none => "-"

/-- Lines 222-264 restricted to the one emitted typography field: the font
family, `-` when the style block or the attribute is absent/unreadable. -/
def fontFamilyOf (ts : Option TextStyleE) : String :=
  match ts with
  | some style => sentinel style.fontFamily
  | none => "-"

/-- Lines 194-289 for a single queued segment.  The bounding-box reads are
not guarded, so their failures propagate; the `fonts` text/typography
extraction sits inside `try: ... except: pass`, in which nothing can fail
on the model, so it emits one row per text alternative. -/
def processSegment (purpose : Purpose) (segment_type pageId : String) (urlId : ℕ)
    (c : SegCtx) : Except PyErr (List Row) :=
  match bbox c.seg.points with
  | none => .error .valueError
  | some b =>
    let region := boxStr b
    let rotation := pymod c.rot 360
    match c.fullPts with
    | none => .error .attributeError
    | some fp =>
      match bbox fp with
      | none => .error .valueError
      | some fb =>
        let full_region := boxStr fb
        let full_rotation := pymod c.fullRot 360
        let segment_id := pageId ++ "_" ++ c.seg.id
        match purpose with
        | .fonts =>
          let language := sentinel c.seg.language
          let font_family := fontFamilyOf c.seg.textStyle
          .ok (c.seg.textEquivs.map (fun te =>
            .fonts ⟨te.1, language, font_family, segment_type, segment_id, urlId,
                    region, rotation, full_region, full_rotation⟩))
        | .skew =>
          .ok [.skew ⟨segment_type, segment_id, urlId, region, rotation⟩]

/-- The `for segment, ... in segments:` loop; an uncaught exception from
one segment aborts the rest. -/
def processSegments (purpose : Purpose) (segment_type pageId : String) (urlId : ℕ) :
    List SegCtx → Except PyErr (List Row)
  | [] => .ok []
  | c :: cs => do
      let rs ← processSegment purpose segment_type pageId urlId c
      let rest ← processSegments purpose segment_type pageId urlId cs
      .ok (rs ++ rest)

/-- Lines 143-289 for one page file: the rows it contributes, given its
zero-based position `urlId` in the URL list. -/
def processPage (purpose : Purpose) (segment_type : String) (f : PageFile) (urlId : ℕ) :
    Except PyErr (List Row) :=
  let pageRot := pageRotationOf f.page
  if segment_type = "Page" then
    .ok (if purpose = .skew then
           [.skew ⟨segment_type, f.pageId, urlId, "full", pymod pageRot 360⟩]
         else [])
  else
    processSegments purpose segment_type f.pageId urlId (segmentsFor segment_type f.page pageRot)

/-- The `for fl in mets.find_files(...)` loop (line 132): one URL appended
per page file, rows accumulated; the first uncaught exception aborts the
command. -/
def page2tsvGo (purpose : Purpose) (segment_type scheme server pfx : String)
    (urlCount : ℕ) : List PageFile → Except PyErr (List Row × List String)
  | [] => .ok ([], [])
  | f :: rest => do
      let rs ← processPage purpose segment_type f urlCount
      let (rs', urls') ← page2tsvGo purpose segment_type scheme server pfx (urlCount + 1) rest
      .ok (rs ++ rs', fileUrl scheme server pfx f :: urls')

/-- The `page2tsv` command (lines 92-306), as the record list and URL list
it accumulates, or the exception that aborts it. -/
def page2tsv (purpose : Purpose) (segment_type scheme server pfx : String)
    (files : List PageFile) : Except PyErr (List Row × List String) :=
  page2tsvGo purpose segment_type scheme server pfx 0 files

/-- The lines of the output file: the header is written up front
(line 112); on an empty record set the command returns with only the
header (lines 293-294); otherwise the comment block (one `# `-prefixed URL
per collected URL, lines 296-299) and the data rows follow.  An aborting
exception likewise leaves only the header on disk. -/
def commandOutput (purpose : Purpose) (segment_type scheme server pfx : String)
    (files : List PageFile) : List String :=
  match page2tsv purpose segment_type scheme server pfx files with
  | .error _ => [headerLine purpose]
  | .ok (rows, urls) =>
      headerLine purpose ::
        (if rows.isEmpty then []
         else urls.map (fun u => "# " ++ u) ++ rows.map serializeRow)

/-! ## The structured-document patcher (`tsv2page`, lines 309-328)

The patcher only ever touches `TextLine` elements: it finds the line with
the row's id, overwrites the text of its first `TextEquiv/Unicode`
descendant and (unless `--keep-words`) removes all its `Word` children.
The document is therefore embedded as its list of text lines; the word
children are kept opaque. -/

/-- A `TextLine` element of the target document: its id, the text of each
`TextEquiv/Unicode` descendant in document order, and its `Word`
children (opaque). -/
structure PLine where
  id : String
  unicodeTexts : List String
  words : List String
  deriving DecidableEq, Repr

/-- One row of the correction table: the `line_id` and `TEXT` columns. -/
structure PatchRow where
  line_id : String
  TEXT : String
  deriving DecidableEq, Repr

/-- Lines 322-326 for one row: find the first line with the given id
(`tree.find` returns the first match), set the text of its first Unicode
element, drop its words unless `keep_words`.  `none` models the
`AttributeError` raised when no line matches (`None.find`) or when the
matched line has no `TextEquiv/Unicode` element (`None.text = ...`). -/
def patchLines (keep_words : Bool) (lid txt : String) : List PLine → Option (List PLine)
  | [] => none
  | l :: rest =>
    if l.id = lid then
      match l.unicodeTexts with
      | [] => none
      | _ :: ts => some ({ id := l.id, unicodeTexts := txt :: ts,
                           words := if keep_words then l.words else [] } :: rest)
    else (patchLines keep_words lid txt rest).map (fun ls => l :: ls)

/-- The `tsv2page` command (lines 315-328): apply every correction row in
order; the first failing row aborts the whole operation. -/
def tsv2page (keep_words : Bool) (rows : List PatchRow) (doc : List PLine) :
    Except PyErr (List PLine) :=
  match rows with
  | [] => .ok doc
  | r :: rest =>
    match patchLines keep_words r.line_id r.TEXT doc with
    | none => .error .attributeError
    | some doc' => tsv2page keep_words rest doc'

/-! ## Entity enrichment (`find_entities`, lines 331-381) -/

/-- One row of the enrichment input table: the `No.`, `TOKEN` and `NE-TAG`
column values. -/
structure FeRow where
  no : ℕ
  TOKEN : String
  neTag : String
  deriving DecidableEq, Repr

/-- The input table plus which of the columns the reuse branch reads are
present; reading an absent column raises `KeyError`. -/
structure FeTable where
  rows : List FeRow
  hasNo : Bool
  hasNeTag : Bool
  deriving DecidableEq, Repr

/-- One token of the NER result: `{'word': ..., 'prediction': ...}`. -/
structure TokenPred where
  word : String
  prediction : String
  deriving DecidableEq, Repr

/-- The accepted tag set of line 361. -/
def acceptedTags : List String := ["O", "B-PER", "B-LOC", "B-ORG", "I-PER", "I-LOC", "I-ORG"]

/-- Line 361: any tag outside the accepted set is overwritten with `O`. -/
def normTag (t : String) : String := if t ∈ acceptedTags then t else "O"

/-- Accumulator pass for the sentence grouping: `acc` is the current run
(reversed); a row with `No. = 0` closes it and starts a new one. -/
def senGroupsAux : List FeRow → List FeRow → List (List FeRow)
  | acc, [] => [acc.reverse]
  | acc, r :: rest =>
      if r.no = 0 then acc.reverse :: senGroupsAux [r] rest
      else senGroupsAux (r :: acc) rest

/-- The sentence grouping of line 360: `(No. == 0).cumsum` groups rows
into maximal runs, a new run starting at each row with `No. = 0` (rows
before the first such row form the initial run). -/
def senGroups : List FeRow → List (List FeRow)
  | [] => []
  | r :: rest => senGroupsAux [r] rest

/-- Lines 359-364: the NER result rebuilt from the table's own tags,
normalized and grouped by sentence. -/
def nerFromTable (t : FeTable) : List (List TokenPred) :=
  (senGroups t.rows).map (fun sen => sen.map (fun r => ⟨r.TOKEN, normTag r.neTag⟩))

/-- The configuration failure of line 366. -/
def configError : PyErr :=
  .runtimeError "Either NER rest endpoint or NER-TAG information within tsv_file required."

/-- The NER-source selection of `find_entities` (lines 350-366), up to the
NER result.  The external `ner` service call is passed in as `nerCall`
(its module is treated as an opaque collaborator); `fileExists` is
`os.path.exists(tsv_file)`.  With no endpoint and an existing file the
reuse branch runs, raising `KeyError` if the `No.` or `NE-TAG` column is
absent; the `RuntimeError` of line 366 is reached only when the file does
not exist. -/
def findEntitiesNer (nerCall : FeTable → Except PyErr (List (List TokenPred)))
    (nerEndpoint : Option String) (fileExists : Bool) (t : FeTable) :
    Except PyErr (List (List TokenPred)) :=
  match nerEndpoint with
  | some _ => nerCall t
  | none =>
    if fileExists then
      if t.hasNo then
        if t.hasNeTag then .ok (nerFromTable t)
        else .error .keyError
      else .error .keyError
    else .error configError

/-! ## Derived notions used by the specification claims -/

/-- Both rotation fields of a row lie in the interval `[0, 360)`. -/
def rowRotInRange : Row → Prop
  | .fonts f => 0 ≤ f.rotation ∧ f.rotation < 360 ∧ 0 ≤ f.full_rotation ∧ f.full_rotation < 360
  | .skew s => 0 ≤ s.rotation ∧ s.rotation < 360

/-- The `url_id` column of a row. -/
def rowUrlId : Row → ℕ
  | .fonts f => f.url_id
  | .skew s => s.url_id

/-- Everything of a `fonts` row except the text field. -/
def fontsNonText (f : FontsRow) :
    String × String × String × String × ℕ × String × ℚ × String × ℚ :=
  (f.language, f.font_family, f.segment_type, f.segment_id, f.url_id, f.region,
   f.rotation, f.full_region, f.full_rotation)

/-- Whether an output line is a `# `-prefixed URL comment line. -/
def isCommentLine (l : String) : Bool := l.data.take 2 = ['#', ' ']

/-- Number of comment lines in an output file. -/
def commentCount (ls : List String) : ℕ := (ls.filter isCommentLine).length

/-- The per-line skeleton the patcher's control flow depends on: the line
id and how many `Unicode` descendants it has. -/
def skel (d : List PLine) : List (String × ℕ) :=
  d.map (fun l => (l.id, l.unicodeTexts.length))

/-! ## Concrete documents used by witnesses and counterexamples -/

/-- One text line with the single text alternative `("Hello", 0.9)`,
language and typography absent, own rotation `0`. -/
def exLine : TextLineE :=
  ⟨⟨"l1", [(12, 12), (90, 12), (90, 30), (12, 30)], some 0, [("Hello", 9/10)], none, none⟩, []⟩

/-- One text region containing `exLine`, rotation `0`. -/
def exRegion : RegionE :=
  ⟨⟨"r1", [(10, 10), (100, 10), (100, 60), (10, 60)], some 0, [], none, none⟩, "Text", [exLine]⟩

/-- A page file with the single region `exRegion`, page rotation `0`. -/
def exPageFile : PageFile := ⟨"P0001", ⟨"img1.jpg", some 0, [exRegion]⟩⟩

/-- A page file with no regions at all. -/
def exPageEmpty : PageFile := ⟨"P0002", ⟨"img2.jpg", some 0, []⟩⟩

/-- A text line whose polygon is empty: no bounding box can be produced
from it. -/
def exLineBad : TextLineE := ⟨⟨"l0", [], some 0, [("Bad", 1)], none, none⟩, []⟩

/-- A page file whose region holds the malformed `exLineBad` first and
the well-formed `exLine` second. -/
def exPageBad : PageFile :=
  ⟨"P0001",
   ⟨"img1.jpg", some 0,
    [⟨⟨"r1", [(10, 10), (100, 10), (100, 60), (10, 60)], some 0, [], none, none⟩, "Text",
      [exLineBad, exLine]⟩]⟩⟩

/-- The single data row the C1 scenario produces. -/
def exRow : FontsRow :=
  ⟨"Hello", "-", "-", "TextLine", "P0001_l1", 0, "12,12,78,18", 0, "10,10,90,50", 0⟩

/-! ## Helper lemmas -/

set_option maxRecDepth 4000

theorem exPage_eval :
    page2tsv .fonts "TextLine" "http" "srv" "" [exPageFile]
      = .ok ([Row.fonts exRow], ["http://srv/img1.jpg"]) := by
  simp [page2tsv, page2tsvGo, processPage, segmentsFor, walkLines, regionsOfClass,
        processSegments, processSegment, pageRotationOf, composeRotation, pymod, bbox, boxStr,
        sentinel, fontFamilyOf, fileUrl, baseUrlOf, strReplace, replaceAux, strContains,
        hasSubAux, pyQuote, exPageFile, exRegion, exLine, exRow, List.isPrefixOf,
        Except.bind, bind]
  decide

theorem pymod_eq_fract (x : ℚ) : pymod x 360 = 360 * Int.fract (x / 360) := by
  unfold pymod
  rw [Int.fract]
  ring

theorem pymod_nonneg (x : ℚ) : 0 ≤ pymod x 360 := by
  rw [pymod_eq_fract]
  exact mul_nonneg (by norm_num) (Int.fract_nonneg _)

theorem pymod_lt (x : ℚ) : pymod x 360 < 360 := by
  rw [pymod_eq_fract]
  have h := Int.fract_lt_one (x / 360)
  nlinarith [Int.fract_nonneg (x / 360)]

theorem processSegment_rotRange (purpose : Purpose) (st pid : String) (uid : ℕ) (c : SegCtx)
    (rs : List Row) (h : processSegment purpose st pid uid c = .ok rs) :
    ∀ r ∈ rs, rowRotInRange r := by
  unfold processSegment at h
  split at h
  · cases h
  · split at h
    · cases h
    · split at h
      · cases h
      · split at h
        · cases h
          intro r hr
          simp only [List.mem_map] at hr
          obtain ⟨te, _, rfl⟩ := hr
          exact ⟨pymod_nonneg _, pymod_lt _, pymod_nonneg _, pymod_lt _⟩
        · cases h
          intro r hr
          simp only [List.mem_singleton] at hr
          subst hr
          exact ⟨pymod_nonneg _, pymod_lt _⟩

theorem processSegments_rotRange (purpose : Purpose) (st pid : String) (uid : ℕ)
    (cs : List SegCtx) (rs : List Row)
    (h : processSegments purpose st pid uid cs = .ok rs) :
    ∀ r ∈ rs, rowRotInRange r := by
  induction cs generalizing rs with
  | nil =>
      simp only [processSegments] at h
      cases h
      simp
  | cons c cs ih =>
      simp only [processSegments, bind, Except.bind] at h
      cases h1 : processSegment purpose st pid uid c with
      | error e => rw [h1] at h; cases h
      | ok rs1 =>
          rw [h1] at h
          cases h2 : processSegments purpose st pid uid cs with
          | error e => rw [h2] at h; cases h
          | ok rs2 =>
              rw [h2] at h
              cases h
              intro r hr
              rcases List.mem_append.mp hr with hm | hm
              · exact processSegment_rotRange purpose st pid uid c rs1 h1 r hm
              · exact ih rs2 h2 r hm

theorem processPage_rotRange (purpose : Purpose) (st : String) (f : PageFile) (uid : ℕ)
    (rs : List Row) (h : processPage purpose st f uid = .ok rs) :
    ∀ r ∈ rs, rowRotInRange r := by
  unfold processPage at h
  split at h
  · cases h
    intro r hr
    split at hr
    · simp only [List.mem_singleton] at hr
      subst hr
      exact ⟨pymod_nonneg _, pymod_lt _⟩
    · cases hr
  · exact processSegments_rotRange purpose st f.pageId uid _ rs h

theorem page2tsvGo_rotRange (purpose : Purpose) (st scheme server pfx : String) (n : ℕ)
    (files : List PageFile) (rows : List Row) (urls : List String)
    (h : page2tsvGo purpose st scheme server pfx n files = .ok (rows, urls)) :
    ∀ r ∈ rows, rowRotInRange r := by
  induction files generalizing n rows urls with
  | nil =>
      simp only [page2tsvGo] at h
      cases h
      simp
  | cons f fs ih =>
      simp only [page2tsvGo, bind, Except.bind] at h
      cases h1 : processPage purpose st f n with
      | error e => rw [h1] at h; cases h
      | ok rs1 =>
          rw [h1] at h
          cases h2 : page2tsvGo purpose st scheme server pfx (n + 1) fs with
          | error e => rw [h2] at h; cases h
          | ok out =>
              rw [h2] at h
              cases h
              intro r hr
              rcases List.mem_append.mp hr with hm | hm
              · exact processPage_rotRange purpose st f n rs1 h1 r hm
              · exact ih (n + 1) out.1 out.2 (by rw [h2]) r hm

/-! ## Claim C3 -/

/-- C3: rotation composition across hierarchy levels is by addition, an
absent or unreadable own rotation contributes `0` instead of raising,
grouping a chain of levels differently yields the same composed value,
and every rotation written to a record is its value reduced mod 360,
lying in `[0, 360)`. -/
theorem c3_rotation_composition (p x : ℚ) (o1 o2 o3 : Option ℚ)
    (purpose : Purpose) (st scheme server pfx : String) (files : List PageFile)
    (rows : List Row) (urls : List String)
    (h : page2tsv purpose st scheme server pfx files = .ok (rows, urls)) :
    composeRotation p o1 = p + o1.getD 0
    ∧ composeRotation p none = p
    ∧ composeRotation (composeRotation (composeRotation p o1) o2) o3
        = composeRotation p (some (o1.getD 0 + (o2.getD 0 + o3.getD 0)))
    ∧ (0 ≤ pymod x 360 ∧ pymod x 360 < 360)
    ∧ (∀ r ∈ rows, rowRotInRange r) := by
  refine ⟨rfl, ?_, ?_, ⟨pymod_nonneg x, pymod_lt x⟩, ?_⟩
  · simp [composeRotation]
  · simp only [composeRotation, Option.getD_some]
    ring
  · exact page2tsvGo_rotRange purpose st scheme server pfx 0 files rows urls h

/-- Witness for C3 at concrete inputs. -/
theorem c3_rotation_composition_witness :
    composeRotation 10 (some 20) = 10 + (some (20 : ℚ)).getD 0
    ∧ composeRotation 10 none = 10
    ∧ composeRotation (composeRotation (composeRotation 10 (some 20)) none) (some 330)
        = composeRotation 10
            (some ((some (20 : ℚ)).getD 0 + ((none : Option ℚ).getD 0 + (some (330 : ℚ)).getD 0)))
    ∧ (0 ≤ pymod 700 360 ∧ pymod 700 360 < 360)
    ∧ (∀ r ∈ [Row.fonts exRow], rowRotInRange r) :=
  c3_rotation_composition 10 700 (some 20) none (some 330) .fonts "TextLine" "http" "srv" ""
    [exPageFile] [Row.fonts exRow] ["http://srv/img1.jpg"] exPage_eval

/-! ## Claim C1 -/

/-- C1: a page with one text region containing one line with text
alternatives `[("Hello", 0.9)]`, language absent, typography absent and
rotation `0` at every level, extracted with purpose `fonts` at
granularity `TextLine`, yields exactly one data row
`("Hello", "-", "-", "TextLine", "<page_id>_<line_id>", 0,
"<x0>,<y0>,<w>,<h>", "0.0", "<region box>", "0.0")`, the box fields being
the axis-aligned bounds of the line's and the region's polygons. -/
theorem c1_fonts_textline_scenario :
    page2tsv .fonts "TextLine" "http" "srv" "" [exPageFile]
        = .ok ([Row.fonts exRow], ["http://srv/img1.jpg"])
    ∧ exRow = ⟨"Hello", "-", "-", "TextLine", "P0001_l1", 0, "12,12,78,18", 0, "10,10,90,50", 0⟩
    ∧ serializeRow (Row.fonts exRow)
        = "Hello\t-\t-\tTextLine\tP0001_l1\t0\t12,12,78,18\t0.0\t10,10,90,50\t0.0" := by
  refine ⟨exPage_eval, rfl, ?_⟩
  simp only [serializeRow, exRow, pyFloatStr, tabJoin]
  norm_num
  decide

/-! ## Claims C10 and C6 -/

theorem processPage_page_fonts (f : PageFile) (n : ℕ) :
    processPage .fonts "Page" f n = .ok [] := by
  simp [processPage]

theorem page2tsvGo_page_fonts (scheme server pfx : String) (n : ℕ) (files : List PageFile) :
    page2tsvGo .fonts "Page" scheme server pfx n files
      = .ok ([], files.map (fileUrl scheme server pfx)) := by
  induction files generalizing n with
  | nil => simp [page2tsvGo]
  | cons f fs ih =>
      simp [page2tsvGo, processPage_page_fonts, ih, bind, Except.bind]

/-- C10: with granularity `Page` and purpose `fonts` the extraction emits
no data record at all (a page row is appended only under purpose `skew`),
so the output file is just the header: no comment lines, no data rows. -/
theorem c10_page_fonts_empty (scheme server pfx : String) (files : List PageFile) :
    page2tsv .fonts "Page" scheme server pfx files
      = .ok ([], files.map (fileUrl scheme server pfx))
    ∧ commandOutput .fonts "Page" scheme server pfx files = [headerLine .fonts] := by
  have h := page2tsvGo_page_fonts scheme server pfx 0 files
  refine ⟨h, ?_⟩
  simp [commandOutput, page2tsv, h]

/-- C6: if the extraction produces an empty record set, the output file
contains only the header row — no `# ` comment lines, no data rows. -/
theorem c6_empty_records_header_only (purpose : Purpose)
    (st scheme server pfx : String) (files : List PageFile) (urls : List String)
    (h : page2tsv purpose st scheme server pfx files = .ok ([], urls)) :
    commandOutput purpose st scheme server pfx files = [headerLine purpose] := by
  simp [commandOutput, h]

/-- Witness for C6: the `Page`+`fonts` extraction over one page file has
an empty record set, and its output is exactly the header line. -/
theorem c6_empty_records_header_only_witness :
    commandOutput .fonts "Page" "http" "srv" "" [exPageFile] = [headerLine .fonts] :=
  c6_empty_records_header_only .fonts "Page" "http" "srv" "" [exPageFile]
    ["http://srv/img1.jpg"]
    (by
      simp [page2tsv, page2tsvGo, processPage, fileUrl, baseUrlOf, strReplace, replaceAux,
            pyQuote, exPageFile, bind, Except.bind])

/-! ## Claim C2 (corrected) -/

/-- Counterexample to C2 as stated: in a document whose first line has an
empty polygon and whose second line is well-formed, the whole extraction
pass aborts with the propagated error — it does not skip the malformed
segment and emit the well-formed one. -/
theorem c2_counterexample :
    page2tsv .fonts "TextLine" "http" "srv" "" [exPageBad] = .error .valueError
    ∧ ∀ out, page2tsv .fonts "TextLine" "http" "srv" "" [exPageBad] ≠ .ok out := by
  have h : page2tsv .fonts "TextLine" "http" "srv" "" [exPageBad] = .error .valueError := by
    simp [page2tsv, page2tsvGo, processPage, segmentsFor, walkLines, regionsOfClass,
          processSegments, processSegment, pageRotationOf, composeRotation, bbox,
          strContains, hasSubAux, exPageBad, exLineBad, exLine, List.isPrefixOf,
          Except.bind, bind]
  exact ⟨h, fun out hc => by rw [h] at hc; cases hc⟩

/-- C2 amended: a segment of the requested granularity whose polygon
yields no bounding box makes the per-segment loop — and with it the whole
extraction pass — fail with an error; the segment is not skipped and the
remaining segments are not emitted. -/
theorem c2_amended_malformed_polygon_aborts (purpose : Purpose) (st pid : String) (uid : ℕ)
    (cs : List SegCtx) (c : SegCtx) (hmem : c ∈ cs) (hpts : c.seg.points = []) :
    ∃ e, processSegments purpose st pid uid cs = .error e := by
  induction cs with
  | nil => cases hmem
  | cons c0 cs ih =>
      rcases List.mem_cons.mp hmem with rfl | hmem'
      · refine ⟨.valueError, ?_⟩
        simp [processSegments, processSegment, hpts, bbox, Except.bind, bind]
      · cases h0 : processSegment purpose st pid uid c0 with
        | error e =>
            exact ⟨e, by simp [processSegments, h0, Except.bind, bind]⟩
        | ok rs =>
            obtain ⟨e, he⟩ := ih hmem'
            exact ⟨e, by simp [processSegments, h0, he, Except.bind, bind]⟩

/-- Witness for the amended C2 at a concrete segment list. -/
theorem c2_amended_malformed_polygon_aborts_witness :
    ∃ e, processSegments .fonts "TextLine" "P0001" 0
        [⟨⟨"l0", [], none, [], none, none⟩, 0, some [(0, 0)], 0⟩] = .error e :=
  c2_amended_malformed_polygon_aborts .fonts "TextLine" "P0001" 0
    [⟨⟨"l0", [], none, [], none, none⟩, 0, some [(0, 0)], 0⟩]
    ⟨⟨"l0", [], none, [], none, none⟩, 0, some [(0, 0)], 0⟩
    (List.mem_singleton.mpr rfl) rfl

/-! ## Claim C5 -/

/-- C5: under the `fonts` purpose a segment with `N` text alternatives
produces exactly `N` rows, one per alternative, all sharing every
non-text field; under the `skew` purpose the same segment produces
exactly one row, of a schema that carries no text at all. -/
theorem c5_replication_per_alternative (st pid : String) (uid : ℕ) (c : SegCtx)
    (rsF rsS : List Row)
    (hF : processSegment .fonts st pid uid c = .ok rsF)
    (hS : processSegment .skew st pid uid c = .ok rsS) :
    rsF.length = c.seg.textEquivs.length
    ∧ (∀ r ∈ rsF, ∃ f, r = Row.fonts f)
    ∧ (∀ f f', Row.fonts f ∈ rsF → Row.fonts f' ∈ rsF → fontsNonText f = fontsNonText f')
    ∧ (∃ s, rsS = [Row.skew s]) := by
  unfold processSegment at hF hS
  split at hF
  · cases hF
  · split at hF
    · cases hF
    · split at hF
      · cases hF
      · cases hF
        split at hS
        · cases hS
        · split at hS
          · cases hS
          · split at hS
            · cases hS
            · cases hS
              refine ⟨by simp, ?_, ?_, ⟨_, rfl⟩⟩
              · intro r hr
                simp only [List.mem_map] at hr
                obtain ⟨te, _, rfl⟩ := hr
                exact ⟨_, rfl⟩
              · intro f f' hf hf'
                simp only [List.mem_map] at hf hf'
                obtain ⟨te, _, hfe⟩ := hf
                obtain ⟨te', _, hfe'⟩ := hf'
                cases hfe
                cases hfe'
                rfl

/-- Witness for C5 at a concrete segment carrying two text alternatives. -/
theorem c5_replication_per_alternative_witness :
    ([Row.fonts ⟨"a", "-", "-", "TextLine", "P_l1", 0, "0,0,2,3", 0, "0,0,0,0", 0⟩,
      Row.fonts ⟨"b", "-", "-", "TextLine", "P_l1", 0, "0,0,2,3", 0, "0,0,0,0", 0⟩] : List Row).length
      = (SegCtx.mk ⟨"l1", [(0, 0), (2, 3)], none, [("a", 1), ("b", 1/2)], none, none⟩
          0 (some [(0, 0)]) 0).seg.textEquivs.length
    ∧ (∀ r ∈ ([Row.fonts ⟨"a", "-", "-", "TextLine", "P_l1", 0, "0,0,2,3", 0, "0,0,0,0", 0⟩,
               Row.fonts ⟨"b", "-", "-", "TextLine", "P_l1", 0, "0,0,2,3", 0, "0,0,0,0", 0⟩] : List Row),
        ∃ f, r = Row.fonts f)
    ∧ (∀ f f', Row.fonts f ∈ ([Row.fonts ⟨"a", "-", "-", "TextLine", "P_l1", 0, "0,0,2,3", 0, "0,0,0,0", 0⟩,
               Row.fonts ⟨"b", "-", "-", "TextLine", "P_l1", 0, "0,0,2,3", 0, "0,0,0,0", 0⟩] : List Row)
          → Row.fonts f' ∈ ([Row.fonts ⟨"a", "-", "-", "TextLine", "P_l1", 0, "0,0,2,3", 0, "0,0,0,0", 0⟩,
               Row.fonts ⟨"b", "-", "-", "TextLine", "P_l1", 0, "0,0,2,3", 0, "0,0,0,0", 0⟩] : List Row)
          → fontsNonText f = fontsNonText f')
    ∧ (∃ s, ([Row.skew ⟨"TextLine", "P_l1", 0, "0,0,2,3", 0⟩] : List Row) = [Row.skew s]) := by
  refine c5_replication_per_alternative "TextLine" "P" 0
    (SegCtx.mk ⟨"l1", [(0, 0), (2, 3)], none, [("a", 1), ("b", 1/2)], none, none⟩
      0 (some [(0, 0)]) 0) _ _ ?_ ?_
  · simp [processSegment, bbox, boxStr, pymod, sentinel, fontFamilyOf]
    decide
  · simp [processSegment, bbox, boxStr, pymod, sentinel, fontFamilyOf]
    decide

/-! ## Claim C4 (corrected) -/

theorem processSegment_urlId (purpose : Purpose) (st pid : String) (uid : ℕ) (c : SegCtx)
    (rs : List Row) (h : processSegment purpose st pid uid c = .ok rs) :
    ∀ r ∈ rs, rowUrlId r = uid := by
  unfold processSegment at h
  split at h
  · cases h
  · split at h
    · cases h
    · split at h
      · cases h
      · split at h
        · cases h
          intro r hr
          simp only [List.mem_map] at hr
          obtain ⟨te, _, rfl⟩ := hr
          rfl
        · cases h
          intro r hr
          simp only [List.mem_singleton] at hr
          subst hr
          rfl

theorem processSegments_urlId (purpose : Purpose) (st pid : String) (uid : ℕ)
    (cs : List SegCtx) (rs : List Row)
    (h : processSegments purpose st pid uid cs = .ok rs) :
    ∀ r ∈ rs, rowUrlId r = uid := by
  induction cs generalizing rs with
  | nil =>
      simp only [processSegments] at h
      cases h
      simp
  | cons c cs ih =>
      simp only [processSegments, bind, Except.bind] at h
      cases h1 : processSegment purpose st pid uid c with
      | error e => rw [h1] at h; cases h
      | ok rs1 =>
          rw [h1] at h
          cases h2 : processSegments purpose st pid uid cs with
          | error e => rw [h2] at h; cases h
          | ok rs2 =>
              rw [h2] at h
              cases h
              intro r hr
              rcases List.mem_append.mp hr with hm | hm
              · exact processSegment_urlId purpose st pid uid c rs1 h1 r hm
              · exact ih rs2 h2 r hm

theorem processPage_urlId (purpose : Purpose) (st : String) (f : PageFile) (uid : ℕ)
    (rs : List Row) (h : processPage purpose st f uid = .ok rs) :
    ∀ r ∈ rs, rowUrlId r = uid := by
  unfold processPage at h
  split at h
  · cases h
    intro r hr
    split at hr
    · simp only [List.mem_singleton] at hr
      subst hr
      rfl
    · cases hr
  · exact processSegments_urlId purpose st f.pageId uid _ rs h

theorem page2tsvGo_urls (purpose : Purpose) (st scheme server pfx : String) (n : ℕ)
    (files : List PageFile) (rows : List Row) (urls : List String)
    (h : page2tsvGo purpose st scheme server pfx n files = .ok (rows, urls)) :
    urls = files.map (fileUrl scheme server pfx)
    ∧ ∀ r ∈ rows, n ≤ rowUrlId r ∧ rowUrlId r < n + files.length := by
  induction files generalizing n rows urls with
  | nil =>
      simp only [page2tsvGo] at h
      cases h
      simp
  | cons f fs ih =>
      simp only [page2tsvGo, bind, Except.bind] at h
      cases h1 : processPage purpose st f n with
      | error e => rw [h1] at h; cases h
      | ok rs1 =>
          rw [h1] at h
          cases h2 : page2tsvGo purpose st scheme server pfx (n + 1) fs with
          | error e => rw [h2] at h; cases h
          | ok out =>
              rw [h2] at h
              cases h
              obtain ⟨hurls, hrange⟩ := ih (n + 1) out.1 out.2 (by rw [h2])
              refine ⟨by simp [hurls], ?_⟩
              intro r hr
              rcases List.mem_append.mp hr with hm | hm
              · have := processPage_urlId purpose st f n rs1 h1 r hm
                simp only [List.length_cons]
                omega
              · have := hrange r hm
                simp only [List.length_cons]
                omega

/-- Shared evaluation of the two-page input (second page empty). -/
theorem exTwoPages_eval :
    page2tsv .fonts "TextLine" "http" "srv" "" [exPageFile, exPageEmpty]
      = .ok ([Row.fonts exRow], ["http://srv/img1.jpg", "http://srv/img2.jpg"]) := by
  simp [page2tsv, page2tsvGo, processPage, segmentsFor, walkLines, regionsOfClass,
        processSegments, processSegment, pageRotationOf, composeRotation, pymod, bbox, boxStr,
        sentinel, fontFamilyOf, fileUrl, baseUrlOf, strReplace, replaceAux, strContains,
        hasSubAux, pyQuote, exPageFile, exPageEmpty, exRegion, exLine, exRow, List.isPrefixOf,
        Except.bind, bind]
  decide

/-- Counterexample to C4 as stated: with two page files of which the
second contributes no row, the output carries two comment lines but the
data rows reference a single distinct `url_id`. -/
theorem c4_counterexample :
    page2tsv .fonts "TextLine" "http" "srv" "" [exPageFile, exPageEmpty]
      = .ok ([Row.fonts exRow], ["http://srv/img1.jpg", "http://srv/img2.jpg"])
    ∧ commentCount (commandOutput .fonts "TextLine" "http" "srv" "" [exPageFile, exPageEmpty]) = 2
    ∧ ([Row.fonts exRow].map rowUrlId).dedup.length = 1
    ∧ (2 : ℕ) ≠ 1 := by
  have h := exTwoPages_eval
  refine ⟨h, ?_, by decide, by decide⟩
  have hout : commandOutput .fonts "TextLine" "http" "srv" "" [exPageFile, exPageEmpty]
      = headerLine .fonts ::
          ["# http://srv/img1.jpg", "# http://srv/img2.jpg", serializeRow (Row.fonts exRow)] := by
    simp [commandOutput, h]
  rw [hout]
  simp only [commentCount, headerLine, serializeRow, exRow, pyFloatStr, tabJoin]
  norm_num
  decide

/-- C4 amended: the comment block carries one URL per processed page file
(in file order) — which can exceed the number of distinct `url_id` values
when a page contributes no row — and every data row's `url_id` is a valid
zero-based index into that list, pointing at the URL of the page file
that produced the row (rows produced for the file at position `i` carry
`url_id = i`). -/
theorem c4_amended_urls_index (purpose : Purpose) (st scheme server pfx : String)
    (files : List PageFile) (rows : List Row) (urls : List String)
    (h : page2tsv purpose st scheme server pfx files = .ok (rows, urls)) :
    urls = files.map (fileUrl scheme server pfx)
    ∧ (∀ r ∈ rows, rowUrlId r < urls.length)
    ∧ (∀ r ∈ rows, urls[rowUrlId r]? = (files[rowUrlId r]?).map (fileUrl scheme server pfx))
    ∧ (∀ f i rs, processPage purpose st f i = .ok rs → ∀ r ∈ rs, rowUrlId r = i) := by
  obtain ⟨hurls, hrange⟩ := page2tsvGo_urls purpose st scheme server pfx 0 files rows urls h
  subst hurls
  refine ⟨rfl, ?_, ?_, processPage_urlId purpose st⟩
  · intro r hr
    have := hrange r hr
    simp only [List.length_map]
    omega
  · intro r _
    exact List.getElem?_map (fileUrl scheme server pfx) files (rowUrlId r)

/-- Witness for the amended C4 on the two-page input. -/
theorem c4_amended_urls_index_witness :
    ["http://srv/img1.jpg", "http://srv/img2.jpg"]
        = [exPageFile, exPageEmpty].map (fileUrl "http" "srv" "")
    ∧ (∀ r ∈ [Row.fonts exRow], rowUrlId r < (["http://srv/img1.jpg", "http://srv/img2.jpg"] : List String).length)
    ∧ (∀ r ∈ [Row.fonts exRow],
        (["http://srv/img1.jpg", "http://srv/img2.jpg"] : List String)[rowUrlId r]?
          = ([exPageFile, exPageEmpty][rowUrlId r]?).map (fileUrl "http" "srv" ""))
    ∧ (∀ f i rs, processPage .fonts "TextLine" f i = .ok rs → ∀ r ∈ rs, rowUrlId r = i) :=
  c4_amended_urls_index .fonts "TextLine" "http" "srv" "" [exPageFile, exPageEmpty]
    [Row.fonts exRow] ["http://srv/img1.jpg", "http://srv/img2.jpg"] exTwoPages_eval

/-! ## Patcher lemmas (for C7 and C8) -/

theorem skel_cons (l : PLine) (d : List PLine) :
    skel (l :: d) = (l.id, l.unicodeTexts.length) :: skel d := rfl

theorem patchLines_skel (kw : Bool) (lid txt : String) (d d' : List PLine)
    (h : patchLines kw lid txt d = some d') : skel d' = skel d := by
  induction d generalizing d' with
  | nil => cases h
  | cons l rest ih =>
      by_cases h1 : l.id = lid
      · simp only [patchLines, h1, if_true] at h
        cases hts : l.unicodeTexts with
        | nil => rw [hts] at h; cases h
        | cons u ts =>
            rw [hts] at h
            cases h
            simp [skel_cons, h1, hts]
      · simp only [patchLines, h1, if_false] at h
        cases hp : patchLines kw lid txt rest with
        | none => rw [hp] at h; cases h
        | some rest2 =>
            rw [hp] at h
            cases h
            rw [skel_cons, skel_cons, ih rest2 hp]

theorem patchLines_none_of_missing (kw : Bool) (lid txt : String) (d : List PLine)
    (h : ∀ l ∈ d, l.id ≠ lid) : patchLines kw lid txt d = none := by
  induction d with
  | nil => rfl
  | cons l rest ih =>
      have h1 : l.id ≠ lid := h l (List.mem_cons_self l rest)
      simp only [patchLines, h1, if_false]
      rw [ih (fun x hx => h x (List.mem_cons_of_mem l hx))]
      rfl

theorem patchLines_absorb (kw : Bool) (lid t t' : String) (d d₁ : List PLine)
    (h : patchLines kw lid t d = some d₁) :
    patchLines kw lid t' d₁ = patchLines kw lid t' d := by
  induction d generalizing d₁ with
  | nil => cases h
  | cons l rest ih =>
      by_cases h1 : l.id = lid
      · simp only [patchLines, h1, if_true] at h
        cases hts : l.unicodeTexts with
        | nil => rw [hts] at h; cases h
        | cons u ts =>
            rw [hts] at h
            cases h
            simp only [patchLines, h1, if_true, hts]
            cases kw <;> simp
      · simp only [patchLines, h1, if_false] at h
        cases hp : patchLines kw lid t rest with
        | none => rw [hp] at h; cases h
        | some rest2 =>
            rw [hp] at h
            cases h
            simp only [patchLines, h1, if_false, ih rest2 hp]

theorem patchLines_head_text (kw : Bool) (lid txt : String) (d d' : List PLine)
    (h : patchLines kw lid txt d = some d') :
    ∃ l ∈ d', l.id = lid ∧ l.unicodeTexts.head? = some txt := by
  induction d generalizing d' with
  | nil => cases h
  | cons l rest ih =>
      by_cases h1 : l.id = lid
      · simp only [patchLines, h1, if_true] at h
        cases hts : l.unicodeTexts with
        | nil => rw [hts] at h; cases h
        | cons u ts =>
            rw [hts] at h
            cases h
            exact ⟨_, List.mem_cons_self _ _, rfl, rfl⟩
      · simp only [patchLines, h1, if_false] at h
        cases hp : patchLines kw lid txt rest with
        | none => rw [hp] at h; cases h
        | some rest2 =>
            rw [hp] at h
            cases h
            obtain ⟨x, hx, hxp⟩ := ih rest2 hp
            exact ⟨x, List.mem_cons_of_mem l hx, hxp⟩

theorem tsv2page_skel (kw : Bool) (rows : List PatchRow) (d d' : List PLine)
    (h : tsv2page kw rows d = .ok d') : skel d' = skel d := by
  induction rows generalizing d with
  | nil =>
      simp only [tsv2page] at h
      cases h
      rfl
  | cons r rest ih =>
      simp only [tsv2page] at h
      cases hp : patchLines kw r.line_id r.TEXT d with
      | none => rw [hp] at h; cases h
      | some e =>
          rw [hp] at h
          exact (ih e h).trans (patchLines_skel kw r.line_id r.TEXT d e hp)

theorem skel_ids (d d' : List PLine) (h : skel d' = skel d) :
    d'.map (fun l => l.id) = d.map (fun l => l.id) := by
  have h2 := congrArg (List.map Prod.fst) h
  simpa [skel, List.map_map, Function.comp] using h2

/-! ## Claim C7 -/

/-- C7: each patch row targets the line whose identifier equals the row's
`line_id` and overwrites its primary text value; a row whose identifier
matches no line makes the whole patch operation fail — it is not silently
skipped. -/
theorem c7_patch_target_required (kw : Bool) (rows : List PatchRow) (d : List PLine) :
    ((∃ r ∈ rows, ∀ l ∈ d, l.id ≠ r.line_id) → ∃ e, tsv2page kw rows d = .error e)
    ∧ (∀ lid txt d', patchLines kw lid txt d = some d' →
        ∃ l ∈ d', l.id = lid ∧ l.unicodeTexts.head? = some txt) := by
  refine ⟨?_, fun lid txt d' hp => patchLines_head_text kw lid txt d d' hp⟩
  intro hex
  induction rows generalizing d with
  | nil =>
      obtain ⟨r, hr, _⟩ := hex
      cases hr
  | cons r0 rest ih =>
      obtain ⟨r, hr, hmiss⟩ := hex
      cases hp : patchLines kw r0.line_id r0.TEXT d with
      | none => exact ⟨.attributeError, by simp [tsv2page, hp]⟩
      | some e =>
          rcases List.mem_cons.mp hr with rfl | hrest
          · rw [patchLines_none_of_missing kw r.line_id r.TEXT d hmiss] at hp
            cases hp
          · have hids := skel_ids d e (patchLines_skel kw r0.line_id r0.TEXT d e hp)
            have hmiss' : ∀ l ∈ e, l.id ≠ r.line_id := by
              intro l hl
              have hmem : l.id ∈ e.map (fun l => l.id) := List.mem_map_of_mem _ hl
              rw [hids] at hmem
              obtain ⟨l0, hl0, hid⟩ := List.mem_map.mp hmem
              rw [← hid]
              exact hmiss l0 hl0
            obtain ⟨e', he'⟩ := ih e ⟨r, hrest, hmiss'⟩
            exact ⟨e', by simp [tsv2page, hp, he']⟩

/-- Witness for C7: a row whose id matches nothing makes the patch fail,
and a successful single patch overwrites the primary text. -/
theorem c7_patch_target_required_witness :
    (∃ e, tsv2page false [⟨"LX", "new"⟩] [⟨"l1", ["old"], ["w"]⟩] = .error e)
    ∧ (∃ l ∈ [PLine.mk "l1" ["X"] []], l.id = "l1" ∧ l.unicodeTexts.head? = some "X") := by
  have t := c7_patch_target_required false [⟨"LX", "new"⟩] [⟨"l1", ["old"], ["w"]⟩]
  refine ⟨t.1 ⟨⟨"LX", "new"⟩, by decide, by decide⟩, ?_⟩
  exact t.2 "l1" "X" [PLine.mk "l1" ["X"] []] (by decide)

/-! ## Commutation lemmas for the patcher -/

theorem patchLines_isSome_transfer (kw kw' : Bool) (lid t t' : String) (d₁ d₂ : List PLine)
    (hsk : skel d₁ = skel d₂) (h : (patchLines kw lid t d₁).isSome) :
    (patchLines kw' lid t' d₂).isSome := by
  induction d₁ generalizing d₂ with
  | nil =>
      simp [patchLines] at h
  | cons l rest ih =>
      cases d₂ with
      | nil => cases hsk
      | cons l₂ rest₂ =>
          rw [skel_cons, skel_cons] at hsk
          have hid : l.id = l₂.id := congrArg Prod.fst (List.cons.injEq _ _ _ _ ▸ hsk).1
          have hlen : l.unicodeTexts.length = l₂.unicodeTexts.length :=
            congrArg Prod.snd ((List.cons.injEq _ _ _ _ ▸ hsk).1)
          have hrest : skel rest = skel rest₂ := (List.cons.injEq _ _ _ _ ▸ hsk).2
          by_cases h1 : l.id = lid
          · have h2 : l₂.id = lid := hid ▸ h1
            simp only [patchLines, h1, h2, if_true] at h ⊢
            cases hts : l.unicodeTexts with
            | nil => rw [hts] at h; simp at h
            | cons u ts =>
                cases hts₂ : l₂.unicodeTexts with
                | nil => rw [hts, hts₂] at hlen; cases hlen
                | cons u₂ ts₂ => simp
          · have h2 : ¬l₂.id = lid := fun hc => h1 (hid ▸ hc)
            simp only [patchLines, h1, h2, if_false] at h ⊢
            cases hp : patchLines kw lid t rest with
            | none => rw [hp] at h; simp at h
            | some r1 =>
                have := ih rest₂ hrest (by rw [hp]; rfl)
                cases hp₂ : patchLines kw' lid t' rest₂ with
                | none => rw [hp₂] at this; simp at this
                | some r2 => simp [hp₂]

theorem patchLines_comm (kw : Bool) (lid t lid' t' : String) (hne : lid ≠ lid')
    (d : List PLine) :
    (patchLines kw lid t d).bind (patchLines kw lid' t')
      = (patchLines kw lid' t' d).bind (patchLines kw lid t) := by
  induction d with
  | nil => simp [patchLines]
  | cons l rest ih =>
      by_cases h1 : l.id = lid
      · subst h1
        cases hts : l.unicodeTexts with
        | nil =>
            simp only [patchLines, if_pos rfl, if_neg hne, hts, Option.none_bind]
            cases hp : patchLines kw lid' t' rest with
            | none => simp
            | some rest₂ => simp [patchLines, hts]
        | cons u ts =>
            simp only [patchLines, if_pos rfl, if_neg hne, hts, Option.some_bind]
            cases hp : patchLines kw lid' t' rest with
            | none => simp [patchLines, if_neg hne, hp]
            | some rest₂ => simp [patchLines, if_neg hne, hts, hp]
      · by_cases h2 : l.id = lid'
        · subst h2
          have hne' : ¬l.id = lid := fun hc => hne (hc ▸ rfl)
          cases hts : l.unicodeTexts with
          | nil =>
              simp only [patchLines, if_pos rfl, if_neg hne', hts, Option.none_bind]
              cases hp : patchLines kw lid t rest with
              | none => simp
              | some rest₂ => simp [patchLines, hts]
          | cons u ts =>
              simp only [patchLines, if_pos rfl, if_neg hne', hts, Option.some_bind]
              cases hp : patchLines kw lid t rest with
              | none => simp [patchLines, if_neg hne', hp]
              | some rest₂ => simp [patchLines, if_neg hne', hts, hp]
        · simp only [patchLines, if_neg h1, if_neg h2]
          have hih := ih
          cases hp1 : patchLines kw lid t rest with
          | none =>
              cases hp2 : patchLines kw lid' t' rest with
              | none => simp
              | some rest₂ =>
                  rw [hp1, hp2] at hih
                  simp only [Option.none_bind, Option.some_bind] at hih
                  simp [patchLines, if_neg h1, ← hih]
          | some rest₁ =>
              cases hp2 : patchLines kw lid' t' rest with
              | none =>
                  rw [hp1, hp2] at hih
                  simp only [Option.none_bind, Option.some_bind] at hih
                  simp [patchLines, if_neg h2, hih]
              | some rest₂ =>
                  rw [hp1, hp2] at hih
                  simp only [Option.some_bind] at hih
                  simp [patchLines, if_neg h1, if_neg h2, hih]

/-- Commuting one patch past a whole pass none of whose rows targets the
same line id. -/
theorem tsv2page_patch_comm (kw : Bool) (rows : List PatchRow) (lid t : String)
    (hrows : ∀ r' ∈ rows, r'.line_id ≠ lid) :
    ∀ x x' y, patchLines kw lid t x = some x' → tsv2page kw rows x = .ok y →
      ∃ y', patchLines kw lid t y = some y' ∧ tsv2page kw rows x' = .ok y' := by
  induction rows with
  | nil =>
      intro x x' y hx hy
      simp only [tsv2page] at hy
      cases hy
      exact ⟨x', hx, rfl⟩
  | cons r0 rest ih =>
      intro x x' y hx hy
      have hr0 : r0.line_id ≠ lid := hrows r0 (List.mem_cons_self r0 rest)
      simp only [tsv2page] at hy
      cases hp : patchLines kw r0.line_id r0.TEXT x with
      | none => rw [hp] at hy; cases hy
      | some u =>
          rw [hp] at hy
          have hcomm := patchLines_comm kw lid t r0.line_id r0.TEXT (fun hc => hr0 hc.symm) x
          rw [hx, hp] at hcomm
          simp only [Option.some_bind] at hcomm
          have hu : (patchLines kw lid t u).isSome := by
            refine patchLines_isSome_transfer kw kw lid t t x u ?_ (by rw [hx]; rfl)
            exact (patchLines_skel kw r0.line_id r0.TEXT x u hp).symm
          obtain ⟨u', hu'⟩ := Option.isSome_iff_exists.mp hu
          rw [hu'] at hcomm
          obtain ⟨y', hy', hrest'⟩ :=
            ih (fun q hq => hrows q (List.mem_cons_of_mem r0 hq)) u u' y hu' hy
          refine ⟨y', hy', ?_⟩
          simp only [tsv2page, hcomm]
          exact hrest'

/-- A pass containing a row for the same line id absorbs a preceding
patch of that line. -/
theorem tsv2page_absorb (kw : Bool) (rows : List PatchRow) (r : PatchRow)
    (hmem : ∃ r' ∈ rows, r'.line_id = r.line_id) :
    ∀ x x₁, patchLines kw r.line_id r.TEXT x = some x₁ →
      tsv2page kw rows x₁ = tsv2page kw rows x := by
  induction rows with
  | nil =>
      obtain ⟨r', hr', _⟩ := hmem
      cases hr'
  | cons r0 rest ih =>
      intro x x₁ hx
      by_cases hc : r0.line_id = r.line_id
      · have habs := patchLines_absorb kw r.line_id r.TEXT r0.TEXT x x₁ hx
        simp only [tsv2page, hc, habs]
      · obtain ⟨r', hr', hid⟩ := hmem
        have hr'rest : r' ∈ rest := by
          rcases List.mem_cons.mp hr' with rfl | h
          · exact absurd hid hc
          · exact h
        have hcomm := patchLines_comm kw r.line_id r.TEXT r0.line_id r0.TEXT
          (fun hcc => hc hcc.symm) x
        rw [hx] at hcomm
        simp only [Option.some_bind] at hcomm
        cases hp : patchLines kw r0.line_id r0.TEXT x with
        | none =>
            rw [hp] at hcomm
            simp only [Option.none_bind] at hcomm
            simp only [tsv2page, hcomm, hp]
        | some u =>
            rw [hp] at hcomm
            simp only [Option.some_bind] at hcomm
            have hu : (patchLines kw r.line_id r.TEXT u).isSome := by
              refine patchLines_isSome_transfer kw kw r.line_id r.TEXT r.TEXT x u ?_
                (by rw [hx]; rfl)
              exact (patchLines_skel kw r0.line_id r0.TEXT x u hp).symm
            obtain ⟨u₁, hu₁⟩ := Option.isSome_iff_exists.mp hu
            rw [hu₁] at hcomm
            simp only [tsv2page, hcomm, hp]
            exact ih ⟨r', hr'rest, hid⟩ u u₁ hu₁

/-! ## Claim C8 -/

/-- C8: patching is idempotent — if applying the correction table to a
document succeeds with result `d1`, applying the same table to `d1`
succeeds and returns `d1` itself (so in particular the text content of
the second result is identical to the first). -/
theorem c8_patch_idempotent (kw : Bool) (rows : List PatchRow) (d d1 : List PLine)
    (h : tsv2page kw rows d = .ok d1) : tsv2page kw rows d1 = .ok d1 := by
  induction rows generalizing d d1 with
  | nil =>
      simp only [tsv2page] at h
      cases h
      rfl
  | cons r rest ih =>
      simp only [tsv2page] at h
      cases hp : patchLines kw r.line_id r.TEXT d with
      | none => rw [hp] at h; cases h
      | some e =>
          rw [hp] at h
          have hskel : skel d1 = skel d :=
            (tsv2page_skel kw rest e d1 h).trans (patchLines_skel kw r.line_id r.TEXT d e hp)
          have hd1 : (patchLines kw r.line_id r.TEXT d1).isSome :=
            patchLines_isSome_transfer kw kw r.line_id r.TEXT r.TEXT d d1 hskel.symm
              (by rw [hp]; rfl)
          obtain ⟨e₂, he₂⟩ := Option.isSome_iff_exists.mp hd1
          by_cases hmem : ∃ r' ∈ rest, r'.line_id = r.line_id
          · have habs := tsv2page_absorb kw rest r hmem d1 e₂ he₂
            have hrest : tsv2page kw rest d1 = .ok d1 := ih e d1 h
            simp only [tsv2page, he₂, habs, hrest]
          · have hrows : ∀ r' ∈ rest, r'.line_id ≠ r.line_id := by
              intro r' hr' hc
              exact hmem ⟨r', hr', hc⟩
            have habs : patchLines kw r.line_id r.TEXT e = some e :=
              (patchLines_absorb kw r.line_id r.TEXT r.TEXT d e hp).trans hp
            obtain ⟨y', hy', hrest'⟩ :=
              tsv2page_patch_comm kw rest r.line_id r.TEXT hrows e e d1 habs h
            have h' : tsv2page kw rest e = Except.ok d1 := h
            rw [hrest'] at h'
            cases h'
            simp only [tsv2page, hy']
            exact ih e _ h

/-- Witness for C8 on a one-row correction table. -/
theorem c8_patch_idempotent_witness :
    tsv2page false [⟨"l1", "X"⟩] [PLine.mk "l1" ["X"] []] = .ok [PLine.mk "l1" ["X"] []] :=
  c8_patch_idempotent false [⟨"l1", "X"⟩] [PLine.mk "l1" ["old"] ["w"]]
    [PLine.mk "l1" ["X"] []] (by decide)

/-! ## Claim C9 (corrected) -/

theorem senGroupsAux_flatten (rest : List FeRow) :
    ∀ acc, (senGroupsAux acc rest).flatten = acc.reverse ++ rest := by
  induction rest with
  | nil => intro acc; simp [senGroupsAux]
  | cons r rs ih =>
      intro acc
      by_cases h : r.no = 0
      · simp [senGroupsAux, h, ih]
      · simp [senGroupsAux, h, ih]

theorem senGroups_flatten (l : List FeRow) : (senGroups l).flatten = l := by
  cases l with
  | nil => rfl
  | cons r rest => simp [senGroups, senGroupsAux_flatten]

theorem normTag_mem (s : String) : normTag s ∈ acceptedTags := by
  unfold normTag
  split
  · assumption
  · simp [acceptedTags]

/-- Counterexample to C9 as stated: with no NER endpoint, an input file
that exists on disk (the invocation already read it) and a table that
carries no `NE-TAG` column at all — i.e. no usable entity-tag source —
the command fails with the column `KeyError` of the tag-reuse branch,
not with the configuration `RuntimeError` of line 366. -/
theorem c9_counterexample :
    findEntitiesNer (fun _ => .error .keyError) none true ⟨[⟨0, "Paris", "MISC"⟩], true, false⟩
      = .error .keyError
    ∧ PyErr.keyError ≠ configError := by
  exact ⟨rfl, by decide⟩

/-- C9 amended: the configuration error is raised (before any network
call — the NER service is never consulted on that path) only when no NER
endpoint is configured **and the input table file does not exist on
disk**; when the file exists the tag-reuse branch runs instead, requiring
the `No.` and `NE-TAG` columns, and every reused tag outside
`{O, B-PER, B-LOC, B-ORG, I-PER, I-LOC, I-ORG}` is normalized to `O`. -/
theorem c9_amended_tag_source (nerCall : FeTable → Except PyErr (List (List TokenPred)))
    (t : FeTable) :
    findEntitiesNer nerCall none false t = .error configError
    ∧ (∀ res, findEntitiesNer nerCall none true t = .ok res →
        t.hasNo = true ∧ t.hasNeTag = true
        ∧ res = nerFromTable t
        ∧ res.flatten.map (fun p => p.prediction) = t.rows.map (fun r => normTag r.neTag)
        ∧ res.flatten.map (fun p => p.word) = t.rows.map (fun r => r.TOKEN)
        ∧ ∀ sen ∈ res, ∀ p ∈ sen, p.prediction ∈ acceptedTags) := by
  constructor
  · simp [findEntitiesNer]
  · intro res h
    simp only [findEntitiesNer, if_true] at h
    cases hno : t.hasNo with
    | false => rw [hno] at h; simp at h
    | true =>
        rw [hno] at h
        cases hne : t.hasNeTag with
        | false => rw [hne] at h; simp at h
        | true =>
            rw [hne] at h
            simp only [if_true] at h
            cases h
            refine ⟨rfl, rfl, rfl, ?_, ?_, ?_⟩
            · rw [nerFromTable, ← List.map_flatten, senGroups_flatten, List.map_map]
              rfl
            · rw [nerFromTable, ← List.map_flatten, senGroups_flatten, List.map_map]
              rfl
            · intro sen hsen p hp
              rw [nerFromTable] at hsen
              obtain ⟨sen₀, _, rfl⟩ := List.mem_map.mp hsen
              obtain ⟨r, _, rfl⟩ := List.mem_map.mp hp
              exact normTag_mem r.neTag

/-- Witness for the amended C9 on a concrete table with one garbage tag. -/
theorem c9_amended_tag_source_witness :
    findEntitiesNer (fun _ => .error .keyError) none false
        ⟨[⟨0, "Paris", "MISC"⟩, ⟨1, "x", "B-PER"⟩], true, true⟩ = .error configError
    ∧ ((⟨[⟨0, "Paris", "MISC"⟩, ⟨1, "x", "B-PER"⟩], true, true⟩ : FeTable).hasNo = true
        ∧ (⟨[⟨0, "Paris", "MISC"⟩, ⟨1, "x", "B-PER"⟩], true, true⟩ : FeTable).hasNeTag = true
        ∧ ([[⟨"Paris", "O"⟩, ⟨"x", "B-PER"⟩]] : List (List TokenPred))
            = nerFromTable ⟨[⟨0, "Paris", "MISC"⟩, ⟨1, "x", "B-PER"⟩], true, true⟩
        ∧ ([[⟨"Paris", "O"⟩, ⟨"x", "B-PER"⟩]] : List (List TokenPred)).flatten.map
              (fun p => p.prediction)
            = ([⟨0, "Paris", "MISC"⟩, ⟨1, "x", "B-PER"⟩] : List FeRow).map
                (fun r => normTag r.neTag)
        ∧ ([[⟨"Paris", "O"⟩, ⟨"x", "B-PER"⟩]] : List (List TokenPred)).flatten.map
              (fun p => p.word)
            = ([⟨0, "Paris", "MISC"⟩, ⟨1, "x", "B-PER"⟩] : List FeRow).map (fun r => r.TOKEN)
        ∧ ∀ sen ∈ ([[⟨"Paris", "O"⟩, ⟨"x", "B-PER"⟩]] : List (List TokenPred)),
            ∀ p ∈ sen, p.prediction ∈ acceptedTags) := by
  have w := c9_amended_tag_source (fun _ => .error .keyError)
    ⟨[⟨0, "Paris", "MISC"⟩, ⟨1, "x", "B-PER"⟩], true, true⟩
  exact ⟨w.1, w.2 [[⟨"Paris", "O"⟩, ⟨"x", "B-PER"⟩]] (by decide)⟩

end PageToTsv
